import Mathlib

/-!
Verification of the per-frame motion/rotation core of a small raylib demo
(`src/main.cpp`).  The float arithmetic of the angle, jump and height logic
is modelled exactly over `ℚ`; the trigonometric parts (`turnToAngle` and the
translation step of the frame loop) are modelled over `ℝ` with `Real.cos`
and `Real.sin`.
-/

namespace Gdl

/-- First loop of `normalizeAngle`: `while (angle > 180.0f) angle -= 360.0f;`. -/
def normLoop1 (angle : ℚ) : ℚ :=
  if 180 < angle then normLoop1 (angle - 360) else angle
termination_by (⌈angle - 180⌉).toNat
decreasing_by
  have h1 : (0 : ℤ) < ⌈angle - 180⌉ := Int.ceil_pos.mpr (by linarith)
  have h2 : ⌈angle - 360 - 180⌉ = ⌈angle - 180⌉ - 360 := by
    have : angle - 360 - 180 = (angle - 180) + (-360 : ℤ) := by push_cast; ring
    rw [this, Int.ceil_add_int]
    omega
  omega

/-- Second loop of `normalizeAngle`: `while (angle < -180.0f) angle += 360.0f;`. -/
def normLoop2 (angle : ℚ) : ℚ :=
  if angle < -180 then normLoop2 (angle + 360) else angle
termination_by (⌈-180 - angle⌉).toNat
decreasing_by
  have h1 : (0 : ℤ) < ⌈-180 - angle⌉ := Int.ceil_pos.mpr (by linarith)
  have h2 : ⌈-180 - (angle + 360)⌉ = ⌈-180 - angle⌉ - 360 := by
    have : -180 - (angle + 360) = (-180 - angle) + (-360 : ℤ) := by push_cast; ring
    rw [this, Int.ceil_add_int]
    omega
  omega

/-- Model of `normalizeAngle` (src/main.cpp lines 40-44): the two `while`
loops run in sequence. -/
def normalizeAngle (angle : ℚ) : ℚ :=
  normLoop2 (normLoop1 angle)

/-- Model of `updateRotation` (src/main.cpp lines 46-68), returning the new
value of `playerRotationCurrent`.  The snap branch returns
`lastPlayerDirection` directly, without re-normalizing. -/
def updateRotation (playerRotationCurrent lastPlayerDirection deltaTime : ℚ) : ℚ :=
  let turnSpeed : ℚ := 0.5
  let diff := normalizeAngle (lastPlayerDirection - playerRotationCurrent)
  if |diff| < 0.01 then
    lastPlayerDirection
  else
    let turnStep := turnSpeed * deltaTime
    let next :=
      if 0 < diff then
        playerRotationCurrent + (if diff < turnStep then diff else turnStep)
      else
        playerRotationCurrent + (if -turnStep < diff then diff else -turnStep)
    normalizeAngle next

lemma normLoop1_le (a : ℚ) : normLoop1 a ≤ 180 := by
  induction a using normLoop1.induct with
  | case1 a h ih => rw [normLoop1, if_pos h]; exact ih
  | case2 a h => rw [normLoop1, if_neg h]; linarith

lemma normLoop1_id {a : ℚ} (h : a ≤ 180) : normLoop1 a = a := by
  rw [normLoop1, if_neg (by linarith)]

lemma normLoop2_ge (a : ℚ) : -180 ≤ normLoop2 a := by
  induction a using normLoop2.induct with
  | case1 a h ih => rw [normLoop2, if_pos h]; exact ih
  | case2 a h => rw [normLoop2, if_neg h]; linarith

lemma normLoop2_le {a : ℚ} (h : a ≤ 180) : normLoop2 a ≤ 180 := by
  induction a using normLoop2.induct with
  | case1 a h1 ih => rw [normLoop2, if_pos h1]; exact ih (by linarith)
  | case2 a h1 => rw [normLoop2, if_neg h1]; exact h

lemma normLoop2_id {a : ℚ} (h : -180 ≤ a) : normLoop2 a = a := by
  rw [normLoop2, if_neg (by linarith)]

lemma normalizeAngle_mem (a : ℚ) :
    -180 ≤ normalizeAngle a ∧ normalizeAngle a ≤ 180 :=
  ⟨normLoop2_ge _, normLoop2_le (normLoop1_le a)⟩

lemma normalizeAngle_eq_self {a : ℚ} (h1 : -180 ≤ a) (h2 : a ≤ 180) :
    normalizeAngle a = a := by
  rw [normalizeAngle, normLoop1_id h2, normLoop2_id h1]

lemma normLoop1_congr (a : ℚ) : ∃ k : ℤ, normLoop1 a = a + 360 * k := by
  induction a using normLoop1.induct with
  | case1 a h ih =>
    obtain ⟨k, hk⟩ := ih
    exact ⟨k - 1, by rw [normLoop1, if_pos h, hk]; push_cast; ring⟩
  | case2 a h => exact ⟨0, by rw [normLoop1, if_neg h]; push_cast; ring⟩

lemma normLoop2_congr (a : ℚ) : ∃ k : ℤ, normLoop2 a = a + 360 * k := by
  induction a using normLoop2.induct with
  | case1 a h ih =>
    obtain ⟨k, hk⟩ := ih
    exact ⟨k + 1, by rw [normLoop2, if_pos h, hk]; push_cast; ring⟩
  | case2 a h => exact ⟨0, by rw [normLoop2, if_neg h]; push_cast; ring⟩

lemma normalizeAngle_congr (a : ℚ) : ∃ k : ℤ, normalizeAngle a = a + 360 * k := by
  obtain ⟨k1, h1⟩ := normLoop1_congr a
  obtain ⟨k2, h2⟩ := normLoop2_congr (normLoop1 a)
  exact ⟨k1 + k2, by rw [normalizeAngle, h2, h1]; push_cast; ring⟩

lemma updateRotation_snap {current target : ℚ} (dt : ℚ)
    (h : |normalizeAngle (target - current)| < 0.01) :
    updateRotation current target dt = target := by
  simp only [updateRotation]
  rw [if_pos h]

lemma updateRotation_step {c : ℚ} (dt : ℚ) (h1 : 0.01 ≤ c) (h2 : c ≤ 180)
    (hdt : 0 ≤ dt) :
    updateRotation c 0 dt = if c ≤ 0.5 * dt then 0 else c - 0.5 * dt := by
  have hd : normalizeAngle (0 - c) = -c := by
    rw [zero_sub]
    exact normalizeAngle_eq_self (by linarith) (by linarith)
  simp only [updateRotation, hd]
  rw [abs_neg, abs_of_pos (by linarith : (0:ℚ) < c)]
  rw [if_neg (by linarith : ¬ c < 0.01)]
  rw [if_neg (by linarith : ¬ (0:ℚ) < -c)]
  by_cases hcs : -(0.5 * dt) < -c
  · have hlt : c < 0.5 * dt := by linarith
    rw [if_pos hcs, if_pos (le_of_lt hlt)]
    have hz : c + -c = (0:ℚ) := by ring
    rw [hz, normalizeAngle_eq_self (by norm_num) (by norm_num)]
  · have hge : 0.5 * dt ≤ c := by linarith
    rw [if_neg hcs]
    by_cases heq : c ≤ 0.5 * dt
    · have : c = 0.5 * dt := le_antisymm heq hge
      rw [if_pos heq, this]
      have : 0.5 * dt + -(0.5 * dt) = (0:ℚ) := by ring
      rw [this, normalizeAngle_eq_self (by norm_num) (by norm_num)]
    · rw [if_neg heq]
      have he : c + -(0.5 * dt) = c - 0.5 * dt := by ring
      rw [he, normalizeAngle_eq_self (by linarith) (by linarith)]

lemma updateRotation_not_snap {current target : ℚ} (dt : ℚ)
    (h : ¬ |normalizeAngle (target - current)| < 0.01) :
    updateRotation current target dt =
      normalizeAngle (if 0 < normalizeAngle (target - current)
        then current + (if normalizeAngle (target - current) < 0.5 * dt
          then normalizeAngle (target - current) else 0.5 * dt)
        else current + (if -(0.5 * dt) < normalizeAngle (target - current)
          then normalizeAngle (target - current) else -(0.5 * dt))) := by
  simp only [updateRotation]
  rw [if_neg h]

lemma updateRotation_zero (dt : ℚ) : updateRotation 0 0 dt = 0 := by
  apply updateRotation_snap
  have hz : normalizeAngle (0 - 0) = 0 := by
    rw [sub_self]
    exact normalizeAngle_eq_self (by norm_num) (by norm_num)
  rw [hz]
  norm_num

lemma updateRotation_cases {c : ℚ} (dt : ℚ) (hc : 0 < c) (h2 : c ≤ 180)
    (hdt : 0 ≤ dt) :
    updateRotation c 0 dt =
      if c < 0.01 then 0 else if c ≤ 0.5 * dt then 0 else c - 0.5 * dt := by
  by_cases hb : c < 0.01
  · rw [if_pos hb]
    apply updateRotation_snap
    have hd : normalizeAngle (0 - c) = -c := by
      rw [zero_sub]
      exact normalizeAngle_eq_self (by linarith) (by linarith)
    rw [hd, abs_neg, abs_of_pos hc]
    exact hb
  · rw [if_neg hb]
    exact updateRotation_step dt (by linarith) h2 hdt

/-- Model of the directional-input if-chain (src/main.cpp lines 121-130):
given the held state of the W, A, S, D keys, produce the heading assigned to
`playerDirection` for this frame (`-1` is the sentinel set at line 121). -/
def resolveDirection {α : Type} [LinearOrderedField α] (w a s d : Bool) : α :=
  if w && d then 45
  else if d && s then 135
  else if s && a then 225
  else if a && w then 315
  else if w then 0
  else if d then 90
  else if s then 180
  else if a then 270
  else -1

/-- Model of the jump trigger (src/main.cpp lines 132-135): SPACE pressed
while `currentAddedHeight == 0` resets `jump` to 3, otherwise `jump` is left
unchanged. -/
def jumpTrigger {α : Type} [LinearOrderedField α] (spacePressed : Bool)
    (currentAddedHeight jump : α) : α :=
  if spacePressed ∧ currentAddedHeight = 0 then 3 else jump

/-- Model of the gravity decay of `jump` (src/main.cpp line 139):
`if (jump > 0) { jump -= 0.01f * milliseconds; }`. -/
def decayJump {α : Type} [LinearOrderedField α] (jump dt : α) : α :=
  if 0 < jump then jump - 0.01 * dt else jump

/-- Model of the height integration and clamp (src/main.cpp lines 137-141),
taking the post-trigger `jump` value; `gravity` is the constant 1. -/
def heightStep {α : Type} [LinearOrderedField α]
    (jump currentAddedHeight dt : α) : α :=
  let addHeight := 0.01 * jump * dt
  let reduceHeight := 0.01 * 1 * dt
  let next := currentAddedHeight + addHeight - reduceHeight
  if next < 0 then 0 else next

/-- The sequence of `playerRotationCurrent` values obtained by repeatedly
calling `updateRotation` with target heading `0` and a fixed `deltaTime`,
starting from `180`. -/
def rotIter (dt : ℚ) : ℕ → ℚ
  | 0 => 180
  | n + 1 => updateRotation (rotIter dt n) 0 dt

/-- C1: starting from current rotation 180 with target heading 0 and
`0.5 * dt < 180`, each call to `updateRotation` moves the rotation strictly
toward 0 without passing it, and after sufficiently many calls the rotation
is exactly 0; a single call with `0.5 * dt ≥ 180` reaches 0 at once. -/
theorem rotation_smoothing_converges (dt : ℚ) (hdt : 0 < dt) :
    (0.5 * dt < 180 →
      (∀ c : ℚ, 0 < c → c ≤ 180 →
        0 ≤ updateRotation c 0 dt ∧ updateRotation c 0 dt < c) ∧
      ∃ N : ℕ, ∀ m, N ≤ m → rotIter dt m = 0) ∧
    (180 ≤ 0.5 * dt → updateRotation 180 0 dt = 0) := by
  constructor
  · intro hsmall
    have hspos : 0 < 0.5 * dt := by linarith
    constructor
    · intro c hc hcle
      rw [updateRotation_cases dt hc hcle (le_of_lt hdt)]
      split_ifs with h1 h2
      · exact ⟨le_refl 0, hc⟩
      · exact ⟨le_refl 0, hc⟩
      · constructor
        · linarith [not_le.mp h2]
        · linarith
    · have inv : ∀ n : ℕ, rotIter dt n = 0 ∨
          (0 < rotIter dt n ∧ rotIter dt n ≤ 180 - n * (0.5 * dt)) := by
        intro n
        induction n with
        | zero => right; refine ⟨by norm_num [rotIter], ?_⟩; simp [rotIter]
        | succ n ih =>
          rcases ih with h0 | ⟨hpos, hle⟩
          · left
            rw [rotIter, h0, updateRotation_zero]
          · have hns : (0:ℚ) ≤ n * (0.5 * dt) := by positivity
            have hc180 : rotIter dt n ≤ 180 := by linarith
            rw [rotIter, updateRotation_cases dt hpos hc180 (le_of_lt hdt)]
            split_ifs with hb hs
            · left; rfl
            · left; rfl
            · right
              refine ⟨by linarith [not_le.mp hs], ?_⟩
              push_cast
              linarith
      obtain ⟨N, hN⟩ := exists_nat_gt (180 / (0.5 * dt))
      have hNs : (180:ℚ) < N * (0.5 * dt) := by
        have := (div_lt_iff₀ hspos).mp hN
        linarith
      have hz : rotIter dt N = 0 := by
        rcases inv N with h0 | ⟨hpos, hle⟩
        · exact h0
        · linarith
      have stay : ∀ k, rotIter dt (N + k) = 0 := by
        intro k
        induction k with
        | zero => simpa using hz
        | succ k ih =>
          have : N + (k + 1) = (N + k) + 1 := rfl
          rw [this, rotIter, ih, updateRotation_zero]
      refine ⟨N, fun m hm => ?_⟩
      obtain ⟨k, rfl⟩ := Nat.exists_eq_add_of_le hm
      exact stay k
  · intro h180
    have h := @updateRotation_step 180 dt (by norm_num) (by norm_num)
      (by linarith : (0:ℚ) ≤ dt)
    rw [h, if_pos h180]

/-- Witness for C1 at `dt = 2`: one step from 90 stays in `[0, 90)`, and the
iteration from 180 reaches 0. -/
theorem rotation_smoothing_converges_witness :
    (0 ≤ updateRotation 90 0 2 ∧ updateRotation 90 0 2 < 90) ∧
    ∃ N : ℕ, ∀ m, N ≤ m → rotIter 2 m = 0 :=
  ⟨((rotation_smoothing_converges 2 (by norm_num)).1 (by norm_num)).1 90
      (by norm_num) (by norm_num),
    ((rotation_smoothing_converges 2 (by norm_num)).1 (by norm_num)).2⟩

/-- C8: `normalizeAngle` lands in `[-180, 180]` and differs from its input
by an integer multiple of 360. -/
theorem normalizeAngle_spec (a : ℚ) :
    (-180 ≤ normalizeAngle a ∧ normalizeAngle a ≤ 180) ∧
    ∃ k : ℤ, normalizeAngle a - a = 360 * k := by
  refine ⟨normalizeAngle_mem a, ?_⟩
  obtain ⟨k, hk⟩ := normalizeAngle_congr a
  exact ⟨k, by rw [hk]; ring⟩

/-- C2 as stated is false: from current rotation −135 (inside `[-180, 180]`)
with target heading 225 and `dt = 1`, the snap branch returns 225, which is
outside `[-180, 180]`. -/
theorem updateRotation_range_counterexample :
    -180 ≤ (-135 : ℚ) ∧ (-135 : ℚ) ≤ 180 ∧
    (225 : ℚ) ∈ ({0, 45, 90, 135, 180, 225, 270, 315} : Set ℚ) ∧
    (0 : ℚ) ≤ 1 ∧
    ¬ (-180 ≤ updateRotation (-135) 225 1 ∧ updateRotation (-135) 225 1 ≤ 180) := by
  have e1 : (225 : ℚ) - (-135) = 360 := by norm_num
  have e2 : normalizeAngle 360 = 0 := by
    rw [normalizeAngle, normLoop1]
    norm_num
    rw [normLoop1]
    norm_num
    rw [normLoop2]
    norm_num
  have e3 : updateRotation (-135) 225 1 = 225 := by
    apply updateRotation_snap
    rw [e1, e2]
    norm_num
  refine ⟨by norm_num, by norm_num, by norm_num, by norm_num, ?_⟩
  rw [e3]
  intro hmem
  have := hmem.2
  norm_num at this

/-- C2 amended: for a start in `[-180, 180]`, a target among the eight
compass headings and `dt ≥ 0`, the result of `updateRotation` either lies in
`[-180, 180]` or equals the target exactly (the snap branch returns the
target un-normalized, so targets 225, 270 and 315 escape the range). -/
theorem updateRotation_range_amended (c t dt : ℚ)
    (_hc1 : -180 ≤ c) (_hc2 : c ≤ 180)
    (_ht : t ∈ ({0, 45, 90, 135, 180, 225, 270, 315} : Set ℚ)) (_hdt : 0 ≤ dt) :
    (-180 ≤ updateRotation c t dt ∧ updateRotation c t dt ≤ 180) ∨
    updateRotation c t dt = t := by
  by_cases h : |normalizeAngle (t - c)| < 0.01
  · right
    exact updateRotation_snap dt h
  · left
    rw [updateRotation_not_snap dt h]
    exact normalizeAngle_mem _

/-- Witness for the amended C2 at `c = 0`, `t = 45`, `dt = 1`. -/
theorem updateRotation_range_amended_witness :
    (-180 ≤ updateRotation 0 45 1 ∧ updateRotation 0 45 1 ≤ 180) ∨
    updateRotation 0 45 1 = 45 :=
  updateRotation_range_amended 0 45 1 (by norm_num) (by norm_num)
    (by norm_num) (by norm_num)

/-- C3: directional resolution is a total function of the four key states
into the sentinel or the eight compass headings; W+D gives 45, W alone gives
0, no keys give −1, and W+S (A, D up) falls through the four diagonal checks
to the first single-key rule, giving heading 0. -/
theorem resolveDirection_cases :
    (∀ w a s d : Bool,
      (resolveDirection w a s d : ℚ) = -1 ∨ (resolveDirection w a s d : ℚ) = 0 ∨
      (resolveDirection w a s d : ℚ) = 45 ∨ (resolveDirection w a s d : ℚ) = 90 ∨
      (resolveDirection w a s d : ℚ) = 135 ∨ (resolveDirection w a s d : ℚ) = 180 ∨
      (resolveDirection w a s d : ℚ) = 225 ∨ (resolveDirection w a s d : ℚ) = 270 ∨
      (resolveDirection w a s d : ℚ) = 315) ∧
    (resolveDirection true false false true : ℚ) = 45 ∧
    (resolveDirection true false false false : ℚ) = 0 ∧
    (resolveDirection false false false false : ℚ) = -1 ∧
    (resolveDirection true false true false : ℚ) = 0 := by
  refine ⟨?_, by norm_num [resolveDirection], by norm_num [resolveDirection],
    by norm_num [resolveDirection], by norm_num [resolveDirection]⟩
  intro w a s d
  cases w <;> cases a <;> cases s <;> cases d <;> norm_num [resolveDirection]

/-- C4 as stated is false: the decay branch subtracts `0.01 * dt` from a
positive `jump` without clamping, so `jump = 3` with `dt = 1000` lands at
−7, strictly below zero. -/
theorem decayJump_negative_counterexample :
    (0 : ℚ) < 3 ∧ (0 : ℚ) ≤ 1000 ∧ decayJump (3 : ℚ) 1000 < 0 := by
  norm_num [decayJump]

/-- C4 amended: for a positive `jump` and `dt ≥ 0` the decay subtracts
exactly `0.01 * dt`, moving `jump` toward zero, and the result is
nonnegative exactly when `0.01 * dt ≤ jump`; a large enough `dt` drives it
negative. -/
theorem decayJump_amended (j dt : ℚ) (hj : 0 < j) (hdt : 0 ≤ dt) :
    decayJump j dt = j - 0.01 * dt ∧ decayJump j dt ≤ j ∧
    (0 ≤ decayJump j dt ↔ 0.01 * dt ≤ j) := by
  have e : decayJump j dt = j - 0.01 * dt := by rw [decayJump, if_pos hj]
  refine ⟨e, by rw [e]; linarith, ?_⟩
  rw [e]
  constructor <;> intro h <;> linarith

/-- Witness for the amended C4 at `jump = 3`, `dt = 100`. -/
theorem decayJump_amended_witness :
    decayJump (3 : ℚ) 100 = 3 - 0.01 * 100 ∧ decayJump (3 : ℚ) 100 ≤ 3 ∧
    (0 ≤ decayJump (3 : ℚ) 100 ↔ (0.01 : ℚ) * 100 ≤ 3) :=
  decayJump_amended 3 100 (by norm_num) (by norm_num)

/-- C5: a SPACE press sets `jump` to 3 exactly when the character is
grounded (`currentAddedHeight = 0`); a press while airborne leaves `jump`
unchanged; and the height integration clamps `currentAddedHeight` at 0 from
below, so it is never negative after a frame. -/
theorem jump_trigger_grounded (sp : Bool) (j h dt : ℚ) :
    (sp = true → h = 0 → jumpTrigger sp h j = 3) ∧
    (0 < h → jumpTrigger sp h j = j) ∧
    (sp = false → jumpTrigger sp h j = j) ∧
    0 ≤ heightStep j h dt ∧
    (h + 0.01 * j * dt - 0.01 * 1 * dt < 0 → heightStep j h dt = 0) := by
  refine ⟨?_, ?_, ?_, ?_, ?_⟩
  · intro hsp hh
    simp [jumpTrigger, hsp, hh]
  · intro hh
    simp [jumpTrigger, hh.ne']
  · intro hsp
    simp [jumpTrigger, hsp]
  · simp only [heightStep]
    split_ifs with hcl
    · norm_num
    · linarith [not_lt.mp hcl]
  · intro hneg
    simp only [heightStep]
    rw [if_pos hneg]

/-- Witness for C5: a grounded press sets `jump` to 3, and the frame height
stays nonnegative. -/
theorem jump_trigger_grounded_witness :
    jumpTrigger true (0 : ℚ) 0 = 3 ∧ 0 ≤ heightStep (0 : ℚ) 0 16 :=
  ⟨(jump_trigger_grounded true 0 0 16).1 rfl rfl,
    (jump_trigger_grounded true 0 0 16).2.2.2.1⟩

/-- Raylib `Vector3`, restricted to its three float fields, modelled over
`ℝ`. -/
@[ext]
structure Vec3 where
  x : ℝ
  y : ℝ
  z : ℝ

/-- Model of `turnToAngle` (src/main.cpp lines 21-38).  The C++ `%` on `int`
truncates toward zero, which is `Int.tmod`. -/
noncomputable def turnToAngle (posToTurn posCenter : Vec3) (degrees : ℤ) : Vec3 :=
  let radians : ℝ := ((Int.tmod degrees 360 : ℤ) : ℝ) * (Real.pi / 180)
  let dx := posToTurn.x - posCenter.x
  let dz := posToTurn.z - posCenter.z
  let rotatedX := dx * Real.cos radians - dz * Real.sin radians
  let rotatedZ := dx * Real.sin radians + dz * Real.cos radians
  { x := rotatedX + posCenter.x, y := posToTurn.y, z := rotatedZ + posCenter.z }

/-- C9: rotating a point about itself is the identity, vertical coordinate
included. -/
theorem turnToAngle_self_pivot (p : Vec3) (degrees : ℤ) :
    turnToAngle p p degrees = p := by
  simp only [turnToAngle]
  ext <;> simp

/-- Raylib `Camera3D`, restricted to the fields the program writes;
`projection` is the enum value (`CAMERA_PERSPECTIVE = 0`). -/
structure Camera3D where
  position : Vec3
  target : Vec3
  up : Vec3
  fovy : ℝ
  projection : ℤ

/-- One frame's key snapshot: held state of W, A, S, D and the pressed edge
of SPACE. -/
structure Input where
  w : Bool
  a : Bool
  s : Bool
  d : Bool
  space : Bool

/-- The mutable locals of `main` that the frame loop updates
(src/main.cpp lines 83-97). -/
structure GameState where
  camera : Camera3D
  playerPosition : Vec3
  lastPlayerDirection : ℝ
  playerRotationCurrent : ℝ
  jump : ℝ
  gravity : ℝ
  currentAddedHeight : ℝ

/-- Initial values of the locals of `main` (src/main.cpp lines 83-97). -/
def initState : GameState where
  camera :=
    { position := ⟨0, 25, 5⟩, target := ⟨0, 0, 0⟩, up := ⟨0, 1, 0⟩,
      fovy := 45, projection := 0 }
  playerPosition := ⟨0, 2, 0⟩
  lastPlayerDirection := 180
  playerRotationCurrent := 180
  jump := 0
  gravity := 1
  currentAddedHeight := 0

/-- Model of the translation guarded by `playerDirection >= 0`
(src/main.cpp lines 143-149), acting on the position only. -/
noncomputable def translate (pos : Vec3) (playerDirection ms : ℝ) : Vec3 :=
  if 0 ≤ playerDirection then
    let radians := (Real.pi / 180) * (playerDirection - 90)
    { x := pos.x + 0.01 * ms * Real.cos radians,
      y := pos.y,
      z := pos.z + 0.01 * ms * Real.sin radians }
  else pos

/-- One iteration of the update part of the frame loop
(src/main.cpp lines 121-153): directional resolution, jump trigger, height
integration with clamp, gravity decay of `jump`, guarded translation (which
also refreshes `lastPlayerDirection`), and the camera follow.  The loop
never calls `updateRotation`, so `playerRotationCurrent` is untouched. -/
noncomputable def frameUpdate (st : GameState) (inp : Input) (ms : ℝ) : GameState :=
  let playerDirection : ℝ := resolveDirection inp.w inp.a inp.s inp.d
  let jump1 := jumpTrigger inp.space st.currentAddedHeight st.jump
  let addHeight := 0.01 * jump1 * ms
  let reduceHeight := 0.01 * st.gravity * ms
  let jump2 := decayJump jump1 ms
  let height1 := st.currentAddedHeight + addHeight - reduceHeight
  let height2 := if height1 < 0 then 0 else height1
  let pos := translate st.playerPosition playerDirection ms
  let last := if 0 ≤ playerDirection then playerDirection else st.lastPlayerDirection
  { st with
    playerPosition := pos,
    lastPlayerDirection := last,
    jump := jump2,
    currentAddedHeight := height2,
    camera := { st.camera with
      position := { x := pos.x, y := st.camera.position.y, z := pos.z + 15 },
      target := pos } }

/-- A whole run: fold the frame update over a list of per-frame inputs and
elapsed times, starting from a given state. -/
noncomputable def run (st : GameState) : List (Input × ℝ) → GameState
  | [] => st
  | frame :: rest => run (frameUpdate st frame.1 frame.2) rest

lemma translate_y (pos : Vec3) (playerDirection ms : ℝ) :
    (translate pos playerDirection ms).y = pos.y := by
  simp only [translate]
  split <;> rfl

lemma translate_heading_zero (pos : Vec3) (ms : ℝ) :
    translate pos 0 ms = ⟨pos.x, pos.y, pos.z - 0.01 * ms⟩ := by
  have harg : (Real.pi / 180) * ((0 : ℝ) - 90) = -(Real.pi / 2) := by ring
  simp only [translate, if_pos (le_refl (0 : ℝ)), harg]
  ext
  · simp [Real.cos_pi_div_two]
  · rfl
  · simp [Real.sin_pi_div_two]
    ring

lemma frameUpdate_playerPosition (st : GameState) (inp : Input) (ms : ℝ) :
    (frameUpdate st inp ms).playerPosition =
      translate st.playerPosition (resolveDirection inp.w inp.a inp.s inp.d) ms :=
  rfl

/-- C6 as stated is false: the frame update never writes the camera's Y
coordinate, so after one frame from the initial state the camera Y is still
25 while the character's Y is 2. -/
theorem camera_y_counterexample :
    (frameUpdate initState ⟨false, false, false, false, false⟩ 16).camera.position.y ≠
      (frameUpdate initState ⟨false, false, false, false, false⟩ 16).playerPosition.y := by
  have h1 : (frameUpdate initState ⟨false, false, false, false, false⟩ 16).camera.position.y
      = 25 := rfl
  have h2 : (frameUpdate initState ⟨false, false, false, false, false⟩ 16).playerPosition.y
      = 2 := by
    rw [frameUpdate_playerPosition, translate_y]
    rfl
  rw [h1, h2]
  norm_num

/-- C6 amended: after every frame the camera X equals the character X, the
camera Z equals the character Z plus 15, the camera target is the character
position, and the camera Y is simply left at its previous value (initially
25), not set to the character's Y. -/
theorem camera_follow_amended (st : GameState) (inp : Input) (ms : ℝ) :
    (frameUpdate st inp ms).camera.position.x =
      (frameUpdate st inp ms).playerPosition.x ∧
    (frameUpdate st inp ms).camera.position.z =
      (frameUpdate st inp ms).playerPosition.z + 15 ∧
    (frameUpdate st inp ms).camera.target = (frameUpdate st inp ms).playerPosition ∧
    (frameUpdate st inp ms).camera.position.y = st.camera.position.y :=
  ⟨rfl, rfl, rfl, rfl⟩

/-- C7: holding W alone resolves to heading 0, whose radians are
`(π/180)·(0−90) = −π/2`, so a frame of `ms` milliseconds moves Z by
`0.01 · ms` in the negative direction and leaves X unchanged. -/
theorem forward_translation (st : GameState) (ms : ℝ) (sp : Bool) :
    (frameUpdate st ⟨true, false, false, false, sp⟩ ms).playerPosition.x =
      st.playerPosition.x ∧
    (frameUpdate st ⟨true, false, false, false, sp⟩ ms).playerPosition.z =
      st.playerPosition.z - 0.01 * ms := by
  have hdir : (resolveDirection true false false false : ℝ) = 0 := by
    norm_num [resolveDirection]
  rw [frameUpdate_playerPosition]
  simp only [hdir, translate_heading_zero]
  constructor <;> trivial

/-- C10: no frame ever writes `playerPosition.y`; over any run from the
initial state it stays exactly 2 (jumping only changes the height offset
added at draw time). -/
theorem player_y_invariant (frames : List (Input × ℝ)) :
    (run initState frames).playerPosition.y = 2 := by
  have h : ∀ (l : List (Input × ℝ)) (st : GameState),
      (run st l).playerPosition.y = st.playerPosition.y := by
    intro l
    induction l with
    | nil => intro st; rfl
    | cons f rest ih =>
      intro st
      rw [run, ih, frameUpdate_playerPosition, translate_y]
  rw [h]
  rfl

end Gdl
